import Mathlib

/-!
Shallow embedding of the wgpu-test 3D scene viewer (camera panning, app
state, resource registry, and the two-stage render pipeline), together
with theorems settling the specification claims.

Vectors, quaternions and matrices are modelled over the real numbers;
the Rust source computes with `f32`, so tolerance-style claims are
settled in the exact real model.
-/

open Real

noncomputable section

/-- Three-component vector over the reals, modelling cgmath `Vector3<f32>`. -/
@[ext]
structure Vec3 where
  x : ℝ
  y : ℝ
  z : ℝ

instance : Add Vec3 where
  add a b := ⟨a.x + b.x, a.y + b.y, a.z + b.z⟩

instance : SMul ℝ Vec3 where
  smul r v := ⟨r * v.x, r * v.y, r * v.z⟩

/-- Dot product of two vectors, as in cgmath `InnerSpace::dot`. -/
def Vec3.dot (a b : Vec3) : ℝ := a.x * b.x + a.y * b.y + a.z * b.z

/-- Cross product of two vectors, as in cgmath `Vector3::cross`. -/
def Vec3.cross (a b : Vec3) : Vec3 :=
  ⟨a.y * b.z - a.z * b.y, a.z * b.x - a.x * b.z, a.x * b.y - a.y * b.x⟩

/-- Squared magnitude of a vector. -/
def Vec3.normSq (v : Vec3) : ℝ := v.x * v.x + v.y * v.y + v.z * v.z

/-- Magnitude of a vector, cgmath `InnerSpace::magnitude`. -/
def Vec3.norm (v : Vec3) : ℝ := Real.sqrt v.normSq

/-- cgmath `InnerSpace::normalize`: multiply by the reciprocal magnitude. -/
def Vec3.normalize (v : Vec3) : Vec3 := (1 / v.norm) • v

theorem Vec3.add_def (a b : Vec3) : a + b = ⟨a.x + b.x, a.y + b.y, a.z + b.z⟩ := rfl

theorem Vec3.smul_def (r : ℝ) (v : Vec3) : r • v = ⟨r * v.x, r * v.y, r * v.z⟩ := rfl

/-- Rotation of a vector about a (unit) axis by an angle, the Rodrigues
formula implemented by cgmath `Matrix3::from_axis_angle` applied to a
vector. -/
def axisAngleRot (axis : Vec3) (angle : ℝ) (v : Vec3) : Vec3 :=
  Real.cos angle • v + Real.sin angle • Vec3.cross axis v +
    ((1 - Real.cos angle) * Vec3.dot axis v) • axis

/-- Camera state, from `src/camera.rs`. -/
structure Camera where
  location : Vec3
  direction : Vec3
  nearClip : ℝ
  farClip : ℝ
  verticalFov : ℝ

/-- World up vector `[0.0, 0.0, 1.0]`. -/
def worldUp : Vec3 := ⟨0, 0, 1⟩

/-- `Camera::pan_horizonal`: rotate `direction` about world +Z by the
negated angle (`Rad(0.0) - angle`). -/
def Camera.panHorizonal (c : Camera) (angle : ℝ) : Camera :=
  { c with direction := axisAngleRot worldUp (0 - angle) c.direction }

/-- `Camera::pan_vertical`: rotate `direction` about the camera's right
axis by the pan angle, clamped so the camera never quite reaches
straight up or straight down (buffer 0.01 rad). -/
def Camera.panVertical (c : Camera) (panAngle : ℝ) : Camera :=
  let axis := (Vec3.cross c.direction worldUp).normalize
  let currentAngle := π / 2 - Real.arccos (Vec3.dot c.direction worldUp)
  let maxPan := π / 2 - currentAngle - 0.01
  let minPan := -(π / 2) - currentAngle + 0.01
  let pan := if panAngle > maxPan then maxPan
    else if panAngle < minPan then minPan
    else panAngle
  { c with direction := axisAngleRot axis pan c.direction }

/-- Elevation of a direction vector above the horizontal plane, computed
exactly as the `current_angle` of `Camera::pan_vertical`:
`π/2 - arccos (direction · world_up)`. -/
def elevation (d : Vec3) : ℝ := π / 2 - Real.arccos (Vec3.dot d worldUp)

/-- The pan angle actually applied by `Camera::pan_vertical` after the
clamp against `max_pan` and `min_pan`. -/
def panClampedAngle (c : Camera) (panAngle : ℝ) : ℝ :=
  let currentAngle := π / 2 - Real.arccos (Vec3.dot c.direction worldUp)
  let maxPan := π / 2 - currentAngle - 0.01
  let minPan := -(π / 2) - currentAngle + 0.01
  if panAngle > maxPan then maxPan
  else if panAngle < minPan then minPan
  else panAngle

theorem panVertical_eq (c : Camera) (θ : ℝ) :
    c.panVertical θ =
      { c with
        direction := axisAngleRot ((Vec3.cross c.direction worldUp).normalize)
            (panClampedAngle c θ) c.direction } := rfl

theorem dot_worldUp (v : Vec3) : Vec3.dot v worldUp = v.z := by
  simp [Vec3.dot, worldUp]

theorem elevation_eq_arcsin (v : Vec3) : elevation v = Real.arcsin v.z := by
  rw [elevation, dot_worldUp, Real.arccos_eq_pi_div_two_sub_arcsin]
  ring

theorem cross_worldUp (v : Vec3) : Vec3.cross v worldUp = ⟨v.y, -v.x, 0⟩ := by
  ext <;> simp [Vec3.cross, worldUp]

theorem axisAngleRot_zero (a v : Vec3) : axisAngleRot a 0 v = v := by
  ext <;> simp [axisAngleRot, Vec3.add_def, Vec3.smul_def]

theorem panClampedAngle_bounds (c : Camera) (θ : ℝ) :
    -(π / 2) - elevation c.direction + 0.01 ≤ panClampedAngle c θ ∧
      panClampedAngle c θ ≤ π / 2 - elevation c.direction - 0.01 := by
  have hpi := Real.pi_gt_three
  simp only [panClampedAngle, elevation]
  split_ifs with h1 h2 <;> constructor <;> linarith

theorem panVertical_direction_z (c : Camera) (θ : ℝ)
    (hs : 0 < c.direction.x ^ 2 + c.direction.y ^ 2) :
    (c.panVertical θ).direction.z =
      Real.cos (panClampedAngle c θ) * c.direction.z +
        Real.sin (panClampedAngle c θ) *
          Real.sqrt (c.direction.x ^ 2 + c.direction.y ^ 2) := by
  have hnc : Vec3.norm ⟨c.direction.y, -c.direction.x, 0⟩ =
      Real.sqrt (c.direction.x ^ 2 + c.direction.y ^ 2) := by
    rw [Vec3.norm]
    congr 1
    simp [Vec3.normSq]
    ring
  have hsq : Real.sqrt (c.direction.x ^ 2 + c.direction.y ^ 2) *
      Real.sqrt (c.direction.x ^ 2 + c.direction.y ^ 2) =
      c.direction.x ^ 2 + c.direction.y ^ 2 := Real.mul_self_sqrt hs.le
  have hpos : 0 < Real.sqrt (c.direction.x ^ 2 + c.direction.y ^ 2) :=
    Real.sqrt_pos.2 hs
  rw [panVertical_eq]
  show (axisAngleRot ((Vec3.cross c.direction worldUp).normalize)
      (panClampedAngle c θ) c.direction).z = _
  rw [cross_worldUp, Vec3.normalize, hnc]
  simp only [axisAngleRot, Vec3.add_def, Vec3.smul_def, Vec3.cross, Vec3.dot]
  field_simp
  ring_nf
  rw [Real.sq_sqrt hs.le]
  ring

theorem panClampedAngle_at_top (c : Camera) (θ : ℝ)
    (htop : elevation c.direction = π / 2 - 0.01) (hθ : 0 ≤ θ) :
    panClampedAngle c θ = 0 := by
  have hpi := Real.pi_gt_three
  rw [elevation] at htop
  simp only [panClampedAngle]
  split_ifs with h1 h2 <;> linarith

theorem panClampedAngle_at_bottom (c : Camera) (θ : ℝ)
    (hbot : elevation c.direction = -(π / 2) + 0.01) (hθ : θ ≤ 0) :
    panClampedAngle c θ = 0 := by
  have hpi := Real.pi_gt_three
  rw [elevation] at hbot
  simp only [panClampedAngle]
  split_ifs with h1 h2 <;> linarith

/-- C1: for every camera whose direction is a non-vertical unit vector,
any call to `pan_vertical` leaves the camera's elevation inside
`[-π/2 + 0.01, π/2 - 0.01]`; and at either clamp boundary a further
same-direction pan is clamped to a zero rotation, leaving the direction
unchanged. -/
theorem panVertical_elevation_clamped (c : Camera)
    (hu : Vec3.norm c.direction = 1)
    (hnv : 0 < c.direction.x ^ 2 + c.direction.y ^ 2) (θ : ℝ) :
    elevation ((c.panVertical θ).direction) ∈
        Set.Icc (-(π / 2) + 0.01) (π / 2 - 0.01) ∧
      (elevation c.direction = π / 2 - 0.01 → 0 ≤ θ →
        (c.panVertical θ).direction = c.direction) ∧
      (elevation c.direction = -(π / 2) + 0.01 → θ ≤ 0 →
        (c.panVertical θ).direction = c.direction) := by
  have hsq : Vec3.normSq c.direction = 1 := by
    have h0 : 0 ≤ Vec3.normSq c.direction := by
      simp only [Vec3.normSq]
      nlinarith [sq_nonneg c.direction.x, sq_nonneg c.direction.y,
        sq_nonneg c.direction.z]
    have := Real.sq_sqrt h0
    rw [Vec3.norm] at hu
    rw [hu] at this
    linarith [this]
  have hsum : c.direction.x ^ 2 + c.direction.y ^ 2 + c.direction.z ^ 2 = 1 := by
    rw [Vec3.normSq] at hsq
    nlinarith [hsq]
  have hzlt : c.direction.z ^ 2 < 1 := by nlinarith
  have hz1 : -1 < c.direction.z := by nlinarith [sq_nonneg (c.direction.z + 1)]
  have hz2 : c.direction.z < 1 := by nlinarith [sq_nonneg (c.direction.z - 1)]
  have hS : c.direction.x ^ 2 + c.direction.y ^ 2 = 1 - c.direction.z ^ 2 := by
    linarith
  have hb := panClampedAngle_bounds c θ
  have hel : elevation c.direction = Real.arcsin c.direction.z :=
    elevation_eq_arcsin c.direction
  have hzl : (c.panVertical θ).direction.z =
      Real.sin (Real.arcsin c.direction.z + panClampedAngle c θ) := by
    rw [panVertical_direction_z c θ hnv, hS, ← Real.cos_arcsin, Real.sin_add,
      Real.sin_arcsin hz1.le hz2.le]
    ring
  have harcl : -(π / 2) < Real.arcsin c.direction.z :=
    Real.neg_pi_div_two_lt_arcsin.2 hz1
  have harcu : Real.arcsin c.direction.z < π / 2 :=
    Real.arcsin_lt_pi_div_two.2 hz2
  rw [hel] at hb
  have helnew : elevation ((c.panVertical θ).direction) =
      Real.arcsin c.direction.z + panClampedAngle c θ := by
    rw [elevation_eq_arcsin, hzl]
    exact Real.arcsin_sin (by linarith [hb.1]) (by linarith [hb.2])
  refine ⟨?_, ?_, ?_⟩
  · rw [helnew]
    exact Set.mem_Icc.2 ⟨by linarith [hb.1], by linarith [hb.2]⟩
  · intro htop hθ
    rw [panVertical_eq]
    show axisAngleRot _ (panClampedAngle c θ) c.direction = c.direction
    rw [panClampedAngle_at_top c θ htop hθ, axisAngleRot_zero]
  · intro hbot hθ
    rw [panVertical_eq]
    show axisAngleRot _ (panClampedAngle c θ) c.direction = c.direction
    rw [panClampedAngle_at_bottom c θ hbot hθ, axisAngleRot_zero]

/-- Concrete instantiation of `panVertical_elevation_clamped` for the
camera looking along the x axis panned by one radian. -/
theorem panVertical_elevation_clamped_witness :
    elevation ((Camera.panVertical ⟨⟨0, 0, 0⟩, ⟨1, 0, 0⟩, 0.1, 1000, π / 2⟩ 1).direction) ∈
      Set.Icc (-(π / 2) + 0.01) (π / 2 - 0.01) :=
  (panVertical_elevation_clamped ⟨⟨0, 0, 0⟩, ⟨1, 0, 0⟩, 0.1, 1000, π / 2⟩
    (by norm_num [Vec3.norm, Vec3.normSq, Real.sqrt_one]) (by norm_num) 1).1

/-- C10: horizontal pan is a round trip: panning by `θ` and then by `-θ`
restores the camera direction exactly in the real-number model. -/
theorem panHorizonal_roundtrip (c : Camera) (θ : ℝ) :
    ((c.panHorizonal θ).panHorizonal (-θ)).direction = c.direction := by
  have h := Real.sin_sq_add_cos_sq θ
  ext
  · simp only [Camera.panHorizonal, axisAngleRot, worldUp, Vec3.cross, Vec3.dot,
      Vec3.add_def, Vec3.smul_def, zero_sub, neg_neg, Real.cos_neg, Real.sin_neg]
    linear_combination c.direction.x * h
  · simp only [Camera.panHorizonal, axisAngleRot, worldUp, Vec3.cross, Vec3.dot,
      Vec3.add_def, Vec3.smul_def, zero_sub, neg_neg, Real.cos_neg, Real.sin_neg]
    linear_combination c.direction.y * h
  · simp only [Camera.panHorizonal, axisAngleRot, worldUp, Vec3.cross, Vec3.dot,
      Vec3.add_def, Vec3.smul_def, zero_sub, neg_neg, Real.cos_neg, Real.sin_neg]
    ring

/-- The camera constructed by `App::new`: located at `(2, 2, 0)`, facing
`normalize(-1, -1, 0)`, with the default clip planes and a 90 degree
vertical field of view. -/
def appCamera : Camera :=
  { location := ⟨2, 2, 0⟩
    direction := Vec3.normalize ⟨-1, -1, 0⟩
    nearClip := 0.1
    farClip := 1000
    verticalFov := π / 2 }

theorem norm_neg_one_neg_one_zero : Vec3.norm ⟨-1, -1, 0⟩ = Real.sqrt 2 := by
  norm_num [Vec3.norm, Vec3.normSq]

theorem sqrt_two_mul_self : Real.sqrt 2 * Real.sqrt 2 = 2 :=
  Real.mul_self_sqrt (by norm_num)

theorem appCamera_direction :
    appCamera.direction = ⟨-(Real.sqrt 2 / 2), -(Real.sqrt 2 / 2), 0⟩ := by
  have h2 : Real.sqrt 2 ≠ 0 := by positivity
  show Vec3.normalize ⟨-1, -1, 0⟩ = _
  rw [Vec3.normalize, norm_neg_one_neg_one_zero]
  ext <;> simp only [Vec3.smul_def] <;> field_simp

/-- C9 counterexample: with the camera of `App::new` (direction
`normalize(-1, -1, 0)`), `pan_horizonal(π/2)` yields direction
`(-√2/2, √2/2, 0)`, while the claim expects approximately
`normalize(1, -1, 0) = (√2/2, -√2/2, 0)`; the y components alone differ
by `√2 > 1`, so the claimed value is wrong even approximately. -/
theorem panHorizonal_ninety_cex :
    (appCamera.panHorizonal (π / 2)).direction =
        ⟨-(Real.sqrt 2 / 2), Real.sqrt 2 / 2, 0⟩ ∧
      Vec3.normalize ⟨1, -1, 0⟩ = ⟨Real.sqrt 2 / 2, -(Real.sqrt 2 / 2), 0⟩ ∧
      |(appCamera.panHorizonal (π / 2)).direction.y -
          (Vec3.normalize ⟨1, -1, 0⟩).y| = Real.sqrt 2 ∧
      1 < Real.sqrt 2 := by
  have h2 : Real.sqrt 2 ≠ 0 := by positivity
  have hnorm : Vec3.norm ⟨1, -1, 0⟩ = Real.sqrt 2 := by
    norm_num [Vec3.norm, Vec3.normSq]
  have hdir : (appCamera.panHorizonal (π / 2)).direction =
      ⟨-(Real.sqrt 2 / 2), Real.sqrt 2 / 2, 0⟩ := by
    rw [Camera.panHorizonal, appCamera_direction]
    ext <;>
      simp only [axisAngleRot, worldUp, Vec3.cross, Vec3.dot, Vec3.add_def,
        Vec3.smul_def, zero_sub, Real.cos_neg, Real.sin_neg,
        Real.cos_pi_div_two, Real.sin_pi_div_two] <;> ring
  have hclaim : Vec3.normalize ⟨1, -1, 0⟩ =
      ⟨Real.sqrt 2 / 2, -(Real.sqrt 2 / 2), 0⟩ := by
    rw [Vec3.normalize, hnorm]
    ext <;> simp only [Vec3.smul_def] <;> field_simp
  have hsqrt_gt : 1 < Real.sqrt 2 := by
    nlinarith [sqrt_two_mul_self, Real.sqrt_nonneg 2]
  refine ⟨hdir, hclaim, ?_, hsqrt_gt⟩
  rw [hdir, hclaim]
  show |Real.sqrt 2 / 2 - -(Real.sqrt 2 / 2)| = Real.sqrt 2
  have hval : Real.sqrt 2 / 2 - -(Real.sqrt 2 / 2) = Real.sqrt 2 := by ring
  rw [hval, abs_of_nonneg (Real.sqrt_nonneg 2)]

/-- C9 (amended): with the camera of `App::new`,
`pan_horizonal(π/2)` — a right-hand-rule rotation about world +Z by
-90° (the camera turning right) — rotates the direction to
`normalize(-1, 1, 0)`, exactly in the real-number model. -/
theorem panHorizonal_ninety :
    (appCamera.panHorizonal (π / 2)).direction = Vec3.normalize ⟨-1, 1, 0⟩ := by
  have h2 : Real.sqrt 2 ≠ 0 := by positivity
  have hnorm : Vec3.norm ⟨-1, 1, 0⟩ = Real.sqrt 2 := by
    norm_num [Vec3.norm, Vec3.normSq]
  have hval : Vec3.normalize ⟨-1, 1, 0⟩ =
      ⟨-(Real.sqrt 2 / 2), Real.sqrt 2 / 2, 0⟩ := by
    rw [Vec3.normalize, hnorm]
    ext <;> simp only [Vec3.smul_def] <;> field_simp
  rw [hval, Camera.panHorizonal, appCamera_direction]
  ext <;>
    simp only [axisAngleRot, worldUp, Vec3.cross, Vec3.dot, Vec3.add_def,
      Vec3.smul_def, zero_sub, Real.cos_neg, Real.sin_neg,
      Real.cos_pi_div_two, Real.sin_pi_div_two] <;> ring

/-- Quaternion over the reals, modelling cgmath `Quaternion<f32>`
(`w` is the scalar part). -/
@[ext]
structure Quat where
  w : ℝ
  x : ℝ
  y : ℝ
  z : ℝ

/-- Hamilton product, cgmath `Quaternion` multiplication. -/
def Quat.mul (p q : Quat) : Quat :=
  ⟨p.w * q.w - p.x * q.x - p.y * q.y - p.z * q.z,
    p.w * q.x + p.x * q.w + p.y * q.z - p.z * q.y,
    p.w * q.y - p.x * q.z + p.y * q.w + p.z * q.x,
    p.w * q.z + p.x * q.y - p.y * q.x + p.z * q.w⟩

/-- Squared magnitude of a quaternion. -/
def Quat.normSq (q : Quat) : ℝ := q.w * q.w + q.x * q.x + q.y * q.y + q.z * q.z

/-- Magnitude of a quaternion, cgmath `InnerSpace::magnitude`. -/
def Quat.magnitude (q : Quat) : ℝ := Real.sqrt q.normSq

/-- Scaling of a quaternion by a real. -/
def Quat.smul (r : ℝ) (q : Quat) : Quat := ⟨r * q.w, r * q.x, r * q.y, r * q.z⟩

/-- cgmath `InnerSpace::normalize` for quaternions. -/
def Quat.normalize (q : Quat) : Quat := Quat.smul (1 / q.magnitude) q

/-- `AppObject::rotate` acting on the orientation quaternion: halve the
angle, build `Quaternion::new(cos, axis.x*sin, axis.y*sin, axis.z*sin)`,
left-multiply it onto the current orientation and renormalize. -/
def rotateOrientation (q : Quat) (angle : ℝ) (axis : Vec3) : Quat :=
  let half := angle / 2
  let s := Real.sin half
  let c := Real.cos half
  (Quat.mul ⟨c, axis.x * s, axis.y * s, axis.z * s⟩ q).normalize

/-- Repeated `AppObject::rotate` calls over a list of angle/axis pairs. -/
def applyRotations (q : Quat) (rots : List (ℝ × Vec3)) : Quat :=
  List.foldl (fun acc r => rotateOrientation acc r.1 r.2) q rots

theorem Quat.normSq_nonneg (q : Quat) : 0 ≤ q.normSq := by
  simp only [Quat.normSq]
  nlinarith [sq_nonneg q.w, sq_nonneg q.x, sq_nonneg q.y, sq_nonneg q.z]

theorem Quat.normSq_mul (p q : Quat) :
    (Quat.mul p q).normSq = p.normSq * q.normSq := by
  simp only [Quat.mul, Quat.normSq]
  ring

theorem Quat.magnitude_mul (p q : Quat) :
    (Quat.mul p q).magnitude = p.magnitude * q.magnitude := by
  simp only [Quat.magnitude, Quat.normSq_mul]
  exact Real.sqrt_mul p.normSq_nonneg _

theorem Quat.magnitude_nonneg (q : Quat) : 0 ≤ q.magnitude :=
  Real.sqrt_nonneg _

theorem Quat.magnitude_normalize (q : Quat) (h : q.magnitude ≠ 0) :
    q.normalize.magnitude = 1 := by
  have hsq : (Quat.normalize q).normSq = (1 / q.magnitude) ^ 2 * q.normSq := by
    simp only [Quat.normalize, Quat.smul, Quat.normSq]
    ring
  have hmagsq : q.magnitude ^ 2 = q.normSq := Real.sq_sqrt q.normSq_nonneg
  rw [Quat.magnitude, hsq, ← hmagsq]
  rw [show (1 / q.magnitude) ^ 2 * q.magnitude ^ 2 = (q.magnitude / q.magnitude) ^ 2 by ring,
    div_self h]
  norm_num

theorem rotationQuat_magnitude (angle : ℝ) (axis : Vec3)
    (haxis : Vec3.norm axis = 1) :
    Quat.magnitude ⟨Real.cos (angle / 2), axis.x * Real.sin (angle / 2),
      axis.y * Real.sin (angle / 2), axis.z * Real.sin (angle / 2)⟩ = 1 := by
  have h0 : 0 ≤ Vec3.normSq axis := by
    simp only [Vec3.normSq]
    nlinarith [sq_nonneg axis.x, sq_nonneg axis.y, sq_nonneg axis.z]
  have hsq : Vec3.normSq axis = 1 := by
    have := Real.sq_sqrt h0
    rw [Vec3.norm] at haxis
    rw [haxis] at this
    linarith [this]
  rw [Vec3.normSq] at hsq
  have htrig := Real.sin_sq_add_cos_sq (angle / 2)
  have : Quat.normSq ⟨Real.cos (angle / 2), axis.x * Real.sin (angle / 2),
      axis.y * Real.sin (angle / 2), axis.z * Real.sin (angle / 2)⟩ = 1 := by
    simp only [Quat.normSq]
    nlinarith [hsq, htrig]
  rw [Quat.magnitude, this, Real.sqrt_one]

theorem rotateOrientation_magnitude (q : Quat) (angle : ℝ) (axis : Vec3)
    (haxis : Vec3.norm axis = 1) (hq : q.magnitude ≠ 0) :
    (rotateOrientation q angle axis).magnitude = 1 := by
  rw [rotateOrientation]
  show (Quat.mul ⟨Real.cos (angle / 2), axis.x * Real.sin (angle / 2),
      axis.y * Real.sin (angle / 2), axis.z * Real.sin (angle / 2)⟩ q).normalize.magnitude = 1
  apply Quat.magnitude_normalize
  rw [Quat.magnitude_mul, rotationQuat_magnitude angle axis haxis, one_mul]
  exact hq

/-- C5: starting from any orientation quaternion whose magnitude is
within `1e-5` of `1`, any finite sequence of `AppObject::rotate` calls
with unit axes keeps the magnitude within `1e-5` of `1` (in fact each
rotate renormalizes the quaternion to magnitude exactly `1` in the real
model). -/
theorem rotate_keeps_unit_magnitude (q : Quat)
    (hq : |q.magnitude - 1| ≤ 0.00001) (rots : List (ℝ × Vec3))
    (haxes : ∀ r ∈ rots, Vec3.norm r.2 = 1) :
    |(applyRotations q rots).magnitude - 1| ≤ 0.00001 := by
  induction rots generalizing q with
  | nil => exact hq
  | cons r rs ih =>
    have haxis : Vec3.norm r.2 = 1 := haxes r (List.mem_cons_self r rs)
    have hq0 : q.magnitude ≠ 0 := by
      intro h0
      rw [h0] at hq
      have : |(0 : ℝ) - 1| = 1 := by norm_num
      rw [this] at hq
      norm_num at hq
    have hone : (rotateOrientation q r.1 r.2).magnitude = 1 :=
      rotateOrientation_magnitude q r.1 r.2 haxis hq0
    have hstep : |(rotateOrientation q r.1 r.2).magnitude - 1| ≤ 0.00001 := by
      rw [hone]
      norm_num
    have : applyRotations q (r :: rs) = applyRotations (rotateOrientation q r.1 r.2) rs := rfl
    rw [this]
    exact ih (rotateOrientation q r.1 r.2) hstep
      (fun s hs => haxes s (List.mem_cons_of_mem r hs))

/-- Concrete instantiation of `rotate_keeps_unit_magnitude`: the identity
orientation rotated a quarter turn about the z axis. -/
theorem rotate_keeps_unit_magnitude_witness :
    |(applyRotations ⟨1, 0, 0, 0⟩ [(π / 2, ⟨0, 0, 1⟩)]).magnitude - 1| ≤ 0.00001 := by
  refine rotate_keeps_unit_magnitude ⟨1, 0, 0, 0⟩ ?_ [(π / 2, ⟨0, 0, 1⟩)] ?_
  · norm_num [Quat.magnitude, Quat.normSq, Real.sqrt_one]
  · intro r hr
    simp only [List.mem_singleton] at hr
    rw [hr]
    norm_num [Vec3.norm, Vec3.normSq, Real.sqrt_one]

/-- Two-component vector over the reals, modelling cgmath `Vector2<f32>`. -/
structure Vec2 where
  x : ℝ
  y : ℝ

/-- Four-by-four real matrix, modelling cgmath `Matrix4<f32>`. -/
abbrev Mat4 := Matrix (Fin 4) (Fin 4) ℝ

/-- cgmath `Matrix4::look_at_dir`, as a mathematical (row-by-row) matrix. -/
def lookAtDir (eye dir up : Vec3) : Mat4 :=
  let f := dir.normalize
  let s := (f.cross up).normalize
  let u := s.cross f
  !![s.x, s.y, s.z, -(Vec3.dot eye s);
     u.x, u.y, u.z, -(Vec3.dot eye u);
     -f.x, -f.y, -f.z, Vec3.dot eye f;
     0, 0, 0, 1]

/-- cgmath `perspective`, as a mathematical (row-by-row) matrix. -/
def perspectiveMat (fovy aspect nearPlane farPlane : ℝ) : Mat4 :=
  let f := Real.cos (fovy / 2) / Real.sin (fovy / 2)
  !![f / aspect, 0, 0, 0;
     0, f, 0, 0;
     0, 0, (farPlane + nearPlane) / (nearPlane - farPlane),
       2 * farPlane * nearPlane / (nearPlane - farPlane);
     0, 0, -1, 0]

/-- `Camera::view`: look-at-direction transform with world up `+Z`. -/
def Camera.view (c : Camera) : Mat4 := lookAtDir c.location c.direction worldUp

/-- `Camera::proj`: perspective projection for the given aspect. -/
def Camera.proj (c : Camera) (aspect : ℝ) : Mat4 :=
  perspectiveMat c.verticalFov aspect c.nearClip c.farClip

/-- cgmath `Matrix4::from_translation`. -/
def fromTranslation (t : Vec3) : Mat4 :=
  !![1, 0, 0, t.x;
     0, 1, 0, t.y;
     0, 0, 1, t.z;
     0, 0, 0, 1]

/-- cgmath `Matrix4::from(Quaternion)`, the standard rotation matrix of a
unit quaternion. -/
def fromQuat (q : Quat) : Mat4 :=
  !![1 - 2 * q.y * q.y - 2 * q.z * q.z, 2 * q.x * q.y - 2 * q.w * q.z,
       2 * q.x * q.z + 2 * q.w * q.y, 0;
     2 * q.x * q.y + 2 * q.w * q.z, 1 - 2 * q.x * q.x - 2 * q.z * q.z,
       2 * q.y * q.z - 2 * q.w * q.x, 0;
     2 * q.x * q.z - 2 * q.w * q.y, 2 * q.y * q.z + 2 * q.w * q.x,
       1 - 2 * q.x * q.x - 2 * q.y * q.y, 0;
     0, 0, 0, 1]

/-- cgmath `Matrix4::from_scale`. -/
def fromScale (s : ℝ) : Mat4 :=
  !![s, 0, 0, 0;
     0, s, 0, 0;
     0, 0, s, 0;
     0, 0, 0, 1]

/-- `AppObject` from `src/app.rs`: a handle to a model, a uniform scale,
a position and an orientation quaternion. -/
structure AppObject where
  model : Nat
  scale : ℝ
  pos : Vec3
  angle : Quat

/-- `AppObject::model_matrix`: translation times rotation times scale. -/
def AppObject.modelMatrix (o : AppObject) : Mat4 :=
  fromTranslation o.pos * fromQuat o.angle * fromScale o.scale

open scoped Classical in
/-- `AppObject::normal_matrix`: inverse-transpose of view times model;
the inversion fails fatally on a zero determinant (`expect` in Rust,
modelled as `Except.error`). -/
def AppObject.normalMatrix (o : AppObject) (view : Mat4) : Except String Mat4 :=
  let modelView := view * o.modelMatrix
  if modelView.det = 0 then .error "Model-View matrix had a zero determinant"
  else .ok modelView⁻¹.transpose

/-- Per-instance data of a frame packet model group. -/
structure InstanceData where
  modelMatrix : Mat4
  normalMatrix : Mat4

/-- One model group of a frame packet. -/
structure FramePacketModel where
  modelId : Nat
  instances : List InstanceData

/-- Per-instance data of a frame packet sprite group. -/
structure SpriteInstanceData where
  screenPos : Vec2
  screenSize : Vec2
  atlasPos : Vec2
  atlasSize : Vec2

/-- One sprite-atlas group of a frame packet. -/
structure FramePacketSprites where
  atlasId : Nat
  sprites : List SpriteInstanceData

/-- The frame packet, the sole interface between the app and the
renderer. -/
structure FramePacket where
  view : Mat4
  proj : Mat4
  models : List FramePacketModel
  overlaySprites : List FramePacketSprites

/-- Key transition states from the input manager. -/
inductive KeyState where
  | down
  | up

/-- Logical movement keys from the input manager. -/
inductive LogicalKey where
  | moveForward
  | strafeLeft
  | moveBackward
  | strafeRight
  | moveUp
  | moveDown

/-- The `multiplier` of `App::handle_key_event`: `+10` on a down
transition, `-10` on an up transition. -/
def keyMultiplier : KeyState → ℝ
  | .down => 10
  | .up => -10

/-- The `base_vel` of `App::handle_key_event`, the axis vector mapped to
each logical key. -/
def baseVel : LogicalKey → Vec3
  | .moveForward => ⟨0, 1, 0⟩
  | .strafeLeft => ⟨-1, 0, 0⟩
  | .moveBackward => ⟨0, -1, 0⟩
  | .strafeRight => ⟨1, 0, 0⟩
  | .moveUp => ⟨0, 0, 1⟩
  | .moveDown => ⟨0, 0, -1⟩

/-- App state from `src/app.rs` (the input manager, an external
collaborator, carries no state relevant to the modelled operations). -/
structure App where
  mainCamera : Camera
  cameraVelocity : Vec3
  object : AppObject
  uiAtlas : Nat

/-- `App::handle_key_event`: add the multiplier times the key's axis
vector to the camera velocity accumulator. -/
def App.handleKeyEvent (app : App) (key : LogicalKey) (newState : KeyState) : App :=
  { app with cameraVelocity := app.cameraVelocity + keyMultiplier newState • baseVel key }

/-- C6: a key-down transition adds `+10` times the key's axis vector to
the velocity accumulator, a key-up transition adds `-10` times the same
vector, and a down followed by an up of the same logical key restores
the accumulator exactly. -/
theorem key_down_up_cancels (app : App) (key : LogicalKey) :
    (app.handleKeyEvent key .down).cameraVelocity =
        app.cameraVelocity + (10 : ℝ) • baseVel key ∧
      (app.handleKeyEvent key .up).cameraVelocity =
        app.cameraVelocity + (-10 : ℝ) • baseVel key ∧
      ((app.handleKeyEvent key .down).handleKeyEvent key .up).cameraVelocity =
        app.cameraVelocity := by
  refine ⟨rfl, rfl, ?_⟩
  simp only [App.handleKeyEvent, keyMultiplier]
  ext <;> simp only [Vec3.add_def, Vec3.smul_def] <;> ring

/-- `App::generate_frame_packet`: a function of the current state and
the aspect only; computes view and projection once, derives the single
object's model and normal matrices, and fills in the fixed UI sprite. -/
def App.generateFramePacket (app : App) (aspect : ℝ) : Except String FramePacket := do
  let view := app.mainCamera.view
  let proj := app.mainCamera.proj aspect
  let nm ← app.object.normalMatrix view
  Except.ok
    { view := view
      proj := proj
      models := [{ modelId := app.object.model
                   instances := [{ modelMatrix := app.object.modelMatrix
                                   normalMatrix := nm }] }]
      overlaySprites := [{ atlasId := app.uiAtlas
                           sprites := [{ screenPos := ⟨0.09, 0.16⟩
                                         screenSize := ⟨-0.09, -0.16⟩
                                         atlasPos := ⟨0, 0⟩
                                         atlasSize := ⟨1, 1⟩ }] }] }

/-- `App::generate_frame_packet` viewed as a state-passing method call:
the receiver is an immutable borrow (`&self`), so the state after the
call is the state before it, paired with the produced packet. -/
def App.generateFramePacketCall (app : App) (aspect : ℝ) :
    App × Except String FramePacket :=
  (app, app.generateFramePacket aspect)

/-- C7: `generate_frame_packet` is pure and deterministic: the call
leaves the app state unchanged, and a second call on the resulting
state with the same aspect produces an identical packet (identical view
and projection matrices and identical packet contents). -/
theorem generateFramePacket_pure (app : App) (aspect : ℝ) :
    (App.generateFramePacketCall app aspect).1 = app ∧
      (App.generateFramePacketCall (App.generateFramePacketCall app aspect).1 aspect).2 =
        (App.generateFramePacketCall app aspect).2 :=
  ⟨rfl, rfl⟩

/-- The two render stages of the renderer. -/
inductive Stage where
  | forward
  | overlay
deriving DecidableEq

/-- Load operation of a render pass attachment. -/
inductive LoadOp where
  | clear
  | load
deriving DecidableEq

/-- GPU commands recorded into the per-frame command encoder, at the
granularity relevant to stage ordering and render pass effects. Each
command is tagged with the stage that records it. -/
inductive Cmd where
  | copyBufferToBuffer (stage : Stage)
  | beginRenderPass (stage : Stage) (colorLoad : LoadOp) (depthLoad : Option LoadOp)
  | drawIndexed (stage : Stage) (modelId : Nat) (instanceCount : Nat)
  | drawSprites (stage : Stage) (atlasId : Nat) (instanceCount : Nat)
deriving DecidableEq

/-- The stage tag of a command. -/
def Cmd.stage : Cmd → Stage
  | .copyBufferToBuffer s => s
  | .beginRenderPass s _ _ => s
  | .drawIndexed s _ _ => s
  | .drawSprites s _ _ => s

/-- Registry and stage-binding state of the `Renderer` from
`src/renderer/mod.rs`. The GPU resources themselves are opaque; the
state tracks the monotonic id counters and the key sets of the four
hash maps (`models`, `atlases`, and the per-stage texture bind
groups). -/
structure RendererState where
  nextModelId : Nat
  models : List Nat
  forwardTextureBindGroups : List Nat
  nextAtlasId : Nat
  atlases : List Nat
  overlayTextureBindGroups : List Nat
deriving DecidableEq

/-- The renderer state directly after `Renderer::new`: both counters at
zero and all maps empty. -/
def freshRenderer : RendererState :=
  { nextModelId := 0
    models := []
    forwardTextureBindGroups := []
    nextAtlasId := 0
    atlases := []
    overlayTextureBindGroups := [] }

/-- `Renderer::upload_model`: registers the forward-stage texture bind
group and the model record under the current `next_model_id`,
increments the counter, and returns the id it stored under. -/
def uploadModel (st : RendererState) : RendererState × Nat :=
  ({ st with
      forwardTextureBindGroups := st.forwardTextureBindGroups ++ [st.nextModelId]
      models := st.models ++ [st.nextModelId]
      nextModelId := st.nextModelId + 1 },
    st.nextModelId)

/-- `Renderer::upload_atlas`: same pattern in the independent atlas id
space. -/
def uploadAtlas (st : RendererState) : RendererState × Nat :=
  ({ st with
      overlayTextureBindGroups := st.overlayTextureBindGroups ++ [st.nextAtlasId]
      atlases := st.atlases ++ [st.nextAtlasId]
      nextAtlasId := st.nextAtlasId + 1 },
    st.nextAtlasId)

/-- A call to one of the two upload operations. -/
inductive UploadEvent where
  | model
  | atlas
deriving DecidableEq

/-- Run a sequence of upload calls, returning the final state and the
trace of events paired with the ids they returned. -/
def runUploads : RendererState → List UploadEvent → RendererState × List (UploadEvent × Nat)
  | st, [] => (st, [])
  | st, e :: es =>
    let step := match e with
      | .model => uploadModel st
      | .atlas => uploadAtlas st
    let rest := runUploads step.1 es
    (rest.1, (e, step.2) :: rest.2)

/-- The model ids returned along a trace, in call order. -/
def modelIdsOf (tr : List (UploadEvent × Nat)) : List Nat :=
  tr.filterMap fun p => match p.1 with
    | .model => some p.2
    | .atlas => none

/-- The atlas ids returned along a trace, in call order. -/
def atlasIdsOf (tr : List (UploadEvent × Nat)) : List Nat :=
  tr.filterMap fun p => match p.1 with
    | .model => none
    | .atlas => some p.2

/-- Number of model uploads in a sequence of upload calls. -/
def countModel (es : List UploadEvent) : Nat :=
  es.countP fun e => match e with
    | .model => true
    | .atlas => false

/-- Number of atlas uploads in a sequence of upload calls. -/
def countAtlas (es : List UploadEvent) : Nat :=
  es.countP fun e => match e with
    | .model => false
    | .atlas => true

/-- `ForwardRenderStage::draw_frame`, the per-model-group loop: look up
the model record and its texture bind group (each `expect` is fatal on
a missing key), then record one render pass that clears color and depth
and issues one instanced indexed draw. -/
def forwardGroupCmds (st : RendererState) : List FramePacketModel → Except String (List Cmd)
  | [] => .ok []
  | g :: gs =>
    if g.modelId ∈ st.models then
      if g.modelId ∈ st.forwardTextureBindGroups then
        match forwardGroupCmds st gs with
        | .error msg => .error msg
        | .ok rest =>
          .ok ([Cmd.beginRenderPass .forward .clear (some .clear),
            Cmd.drawIndexed .forward g.modelId g.instances.length] ++ rest)
      else .error "Frame packet references model with no texture information"
    else .error "Frame packet references model with unknown id"

/-- `ForwardRenderStage::draw_frame`: copy the per-frame uniform data,
then record the per-group passes. -/
def forwardDrawFrame (st : RendererState) (fp : FramePacket) : Except String (List Cmd) :=
  match forwardGroupCmds st fp.models with
  | .error msg => .error msg
  | .ok groups => .ok (Cmd.copyBufferToBuffer .forward :: groups)

/-- `SpriteOverlayRenderStage::draw_frame`, the per-atlas-group loop:
look up the atlas bind group (fatal on a missing key), then record one
render pass that loads the existing color contents and issues one
instanced sprite draw. -/
def overlayGroupCmds (st : RendererState) : List FramePacketSprites → Except String (List Cmd)
  | [] => .ok []
  | g :: gs =>
    if g.atlasId ∈ st.overlayTextureBindGroups then
      match overlayGroupCmds st gs with
      | .error msg => .error msg
      | .ok rest =>
        .ok ([Cmd.beginRenderPass .overlay .load none,
          Cmd.drawSprites .overlay g.atlasId g.sprites.length] ++ rest)
    else .error "Frame packet references sprite atlas with unknown id"

/-- `SpriteOverlayRenderStage::draw_frame`. -/
def overlayDrawFrame (st : RendererState) (fp : FramePacket) : Except String (List Cmd) :=
  overlayGroupCmds st fp.overlaySprites

/-- `Renderer::draw_frame`: open one command encoder, record the forward
stage and then the sprite overlay stage into it, and submit the encoded
commands as a single unit (the result is the list of submissions, each
a command list). -/
def rendererDrawFrame (st : RendererState) (fp : FramePacket) :
    Except String (List (List Cmd)) :=
  match forwardDrawFrame st fp with
  | .error msg => .error msg
  | .ok fwd =>
    match overlayDrawFrame st fp with
    | .error msg => .error msg
    | .ok ovl => .ok [fwd ++ ovl]

/-- Semantics of the color attachment over a command list: the content
is the list of draws recorded since the last `clear` color load,
`(id, instanceCount)` per draw. -/
def interpColor (acc : List (Nat × Nat)) : List Cmd → List (Nat × Nat)
  | [] => acc
  | .copyBufferToBuffer _ :: cs => interpColor acc cs
  | .beginRenderPass _ .clear _ :: cs => interpColor [] cs
  | .beginRenderPass _ .load _ :: cs => interpColor acc cs
  | .drawIndexed _ i n :: cs => interpColor (acc ++ [(i, n)]) cs
  | .drawSprites _ i n :: cs => interpColor (acc ++ [(i, n)]) cs

theorem modelIdsOf_runUploads (es : List UploadEvent) : ∀ st : RendererState,
    modelIdsOf (runUploads st es).2 = List.range' st.nextModelId (countModel es) := by
  induction es with
  | nil => intro st; rfl
  | cons e es ih =>
    intro st
    cases e with
    | model =>
      show modelIdsOf ((UploadEvent.model, st.nextModelId) ::
          (runUploads (uploadModel st).1 es).2) = _
      have hnext : (uploadModel st).1.nextModelId = st.nextModelId + 1 := rfl
      simp only [modelIdsOf, List.filterMap_cons]
      rw [show countModel (UploadEvent.model :: es) = countModel es + 1 by
        simp [countModel, List.countP_cons]]
      rw [List.range'_succ]
      have := ih (uploadModel st).1
      rw [hnext] at this
      simp only [modelIdsOf] at this
      rw [this]
    | atlas =>
      show modelIdsOf ((UploadEvent.atlas, st.nextAtlasId) ::
          (runUploads (uploadAtlas st).1 es).2) = _
      have hnext : (uploadAtlas st).1.nextModelId = st.nextModelId := rfl
      simp only [modelIdsOf, List.filterMap_cons]
      rw [show countModel (UploadEvent.atlas :: es) = countModel es by
        simp [countModel, List.countP_cons]]
      have := ih (uploadAtlas st).1
      rw [hnext] at this
      simp only [modelIdsOf] at this
      rw [this]

theorem atlasIdsOf_runUploads (es : List UploadEvent) : ∀ st : RendererState,
    atlasIdsOf (runUploads st es).2 = List.range' st.nextAtlasId (countAtlas es) := by
  induction es with
  | nil => intro st; rfl
  | cons e es ih =>
    intro st
    cases e with
    | model =>
      show atlasIdsOf ((UploadEvent.model, st.nextModelId) ::
          (runUploads (uploadModel st).1 es).2) = _
      have hnext : (uploadModel st).1.nextAtlasId = st.nextAtlasId := rfl
      simp only [atlasIdsOf, List.filterMap_cons]
      rw [show countAtlas (UploadEvent.model :: es) = countAtlas es by
        simp [countAtlas, List.countP_cons]]
      have := ih (uploadModel st).1
      rw [hnext] at this
      simp only [atlasIdsOf] at this
      rw [this]
    | atlas =>
      show atlasIdsOf ((UploadEvent.atlas, st.nextAtlasId) ::
          (runUploads (uploadAtlas st).1 es).2) = _
      have hnext : (uploadAtlas st).1.nextAtlasId = st.nextAtlasId + 1 := rfl
      simp only [atlasIdsOf, List.filterMap_cons]
      rw [show countAtlas (UploadEvent.atlas :: es) = countAtlas es + 1 by
        simp [countAtlas, List.countP_cons]]
      rw [List.range'_succ]
      have := ih (uploadAtlas st).1
      rw [hnext] at this
      simp only [atlasIdsOf] at this
      rw [this]

/-- C4: handle allocation is monotonic and never reuses an id: for any
sequence of uploads from a fresh renderer, the ids returned by the
model uploads are `0, 1, 2, ...` in call order, the ids returned by
the atlas uploads are `0, 1, 2, ...` independently, and within each
id space no two uploads return the same handle. -/
theorem upload_ids_monotonic (es : List UploadEvent) :
    modelIdsOf (runUploads freshRenderer es).2 = List.range (countModel es) ∧
      atlasIdsOf (runUploads freshRenderer es).2 = List.range (countAtlas es) ∧
      (modelIdsOf (runUploads freshRenderer es).2).Nodup ∧
      (atlasIdsOf (runUploads freshRenderer es).2).Nodup := by
  have hm := modelIdsOf_runUploads es freshRenderer
  have ha := atlasIdsOf_runUploads es freshRenderer
  have hm' : modelIdsOf (runUploads freshRenderer es).2 = List.range (countModel es) := by
    rw [hm, show freshRenderer.nextModelId = 0 from rfl, List.range_eq_range']
  have ha' : atlasIdsOf (runUploads freshRenderer es).2 = List.range (countAtlas es) := by
    rw [ha, show freshRenderer.nextAtlasId = 0 from rfl, List.range_eq_range']
  exact ⟨hm', ha', by rw [hm']; exact List.nodup_range _,
    by rw [ha']; exact List.nodup_range _⟩

theorem runUploads_models (es : List UploadEvent) : ∀ st : RendererState,
    (runUploads st es).1.models = st.models ++ List.range' st.nextModelId (countModel es) ∧
      (runUploads st es).1.forwardTextureBindGroups =
        st.forwardTextureBindGroups ++ List.range' st.nextModelId (countModel es) ∧
      (runUploads st es).1.overlayTextureBindGroups =
        st.overlayTextureBindGroups ++ List.range' st.nextAtlasId (countAtlas es) := by
  induction es with
  | nil => intro st; simp [runUploads, countModel, countAtlas]
  | cons e es ih =>
    intro st
    cases e with
    | model =>
      have h := ih (uploadModel st).1
      refine ⟨?_, ?_, ?_⟩
      · show (runUploads (uploadModel st).1 es).1.models = _
        rw [h.1]
        rw [show countModel (UploadEvent.model :: es) = countModel es + 1 by
          simp [countModel, List.countP_cons]]
        rw [List.range'_succ]
        show st.models ++ [st.nextModelId] ++
          List.range' (st.nextModelId + 1) (countModel es) = _
        simp
      · show (runUploads (uploadModel st).1 es).1.forwardTextureBindGroups = _
        rw [h.2.1]
        rw [show countModel (UploadEvent.model :: es) = countModel es + 1 by
          simp [countModel, List.countP_cons]]
        rw [List.range'_succ]
        show st.forwardTextureBindGroups ++ [st.nextModelId] ++
          List.range' (st.nextModelId + 1) (countModel es) = _
        simp
      · show (runUploads (uploadModel st).1 es).1.overlayTextureBindGroups = _
        rw [h.2.2]
        rw [show countAtlas (UploadEvent.model :: es) = countAtlas es by
          simp [countAtlas, List.countP_cons]]
        rfl
    | atlas =>
      have h := ih (uploadAtlas st).1
      refine ⟨?_, ?_, ?_⟩
      · show (runUploads (uploadAtlas st).1 es).1.models = _
        rw [h.1]
        rw [show countModel (UploadEvent.atlas :: es) = countModel es by
          simp [countModel, List.countP_cons]]
        rfl
      · show (runUploads (uploadAtlas st).1 es).1.forwardTextureBindGroups = _
        rw [h.2.1]
        rw [show countModel (UploadEvent.atlas :: es) = countModel es by
          simp [countModel, List.countP_cons]]
        rfl
      · show (runUploads (uploadAtlas st).1 es).1.overlayTextureBindGroups = _
        rw [h.2.2]
        rw [show countAtlas (UploadEvent.atlas :: es) = countAtlas es + 1 by
          simp [countAtlas, List.countP_cons]]
        rw [List.range'_succ]
        show st.overlayTextureBindGroups ++ [st.nextAtlasId] ++
          List.range' (st.nextAtlasId + 1) (countAtlas es) = _
        simp

theorem forwardGroupCmds_error_of_bad (st : RendererState) (gs : List FramePacketModel)
    (g : FramePacketModel) (hg : g ∈ gs)
    (hbad : g.modelId ∉ st.models ∨ g.modelId ∉ st.forwardTextureBindGroups) :
    ∃ msg, forwardGroupCmds st gs = .error msg := by
  induction gs with
  | nil => cases hg
  | cons a gs ih =>
    by_cases h1 : a.modelId ∈ st.models
    · by_cases h2 : a.modelId ∈ st.forwardTextureBindGroups
      · have hgs : g ∈ gs := by
          cases List.mem_cons.1 hg with
          | inl h =>
            subst h
            cases hbad with
            | inl h => exact absurd h1 h
            | inr h => exact absurd h2 h
          | inr h => exact h
        obtain ⟨msg, hmsg⟩ := ih hgs
        refine ⟨msg, ?_⟩
        simp [forwardGroupCmds, h1, h2, hmsg]
      · exact ⟨"Frame packet references model with no texture information",
          by simp [forwardGroupCmds, h1, h2]⟩
    · exact ⟨"Frame packet references model with unknown id",
        by simp [forwardGroupCmds, h1]⟩

theorem overlayGroupCmds_error_of_bad (st : RendererState) (gs : List FramePacketSprites)
    (g : FramePacketSprites) (hg : g ∈ gs)
    (hbad : g.atlasId ∉ st.overlayTextureBindGroups) :
    ∃ msg, overlayGroupCmds st gs = .error msg := by
  induction gs with
  | nil => cases hg
  | cons a gs ih =>
    by_cases h1 : a.atlasId ∈ st.overlayTextureBindGroups
    · have hgs : g ∈ gs := by
        cases List.mem_cons.1 hg with
        | inl h => subst h; exact absurd h1 hbad
        | inr h => exact h
      obtain ⟨msg, hmsg⟩ := ih hgs
      refine ⟨msg, ?_⟩
      simp [overlayGroupCmds, h1, hmsg]
    · exact ⟨"Frame packet references sprite atlas with unknown id",
        by simp [overlayGroupCmds, h1]⟩

theorem forwardGroupCmds_ok_of_good (st : RendererState) (gs : List FramePacketModel)
    (h : ∀ g ∈ gs, g.modelId ∈ st.models ∧ g.modelId ∈ st.forwardTextureBindGroups) :
    ∃ cs, forwardGroupCmds st gs = .ok cs := by
  induction gs with
  | nil => exact ⟨[], rfl⟩
  | cons a gs ih =>
    obtain ⟨h1, h2⟩ := h a (List.mem_cons_self a gs)
    obtain ⟨cs, hcs⟩ := ih fun g hg => h g (List.mem_cons_of_mem a hg)
    refine ⟨Cmd.beginRenderPass .forward .clear (some .clear) ::
      Cmd.drawIndexed .forward a.modelId a.instances.length :: cs, ?_⟩
    simp [forwardGroupCmds, h1, h2, hcs]

theorem overlayGroupCmds_ok_of_good (st : RendererState) (gs : List FramePacketSprites)
    (h : ∀ g ∈ gs, g.atlasId ∈ st.overlayTextureBindGroups) :
    ∃ cs, overlayGroupCmds st gs = .ok cs := by
  induction gs with
  | nil => exact ⟨[], rfl⟩
  | cons a gs ih =>
    have h1 := h a (List.mem_cons_self a gs)
    obtain ⟨cs, hcs⟩ := ih fun g hg => h g (List.mem_cons_of_mem a hg)
    refine ⟨Cmd.beginRenderPass .overlay .load none ::
      Cmd.drawSprites .overlay a.atlasId a.sprites.length :: cs, ?_⟩
    simp [overlayGroupCmds, h1, hcs]

/-- C2: drawing a frame packet that references a handle absent from the
registry maps is fatal — the forward stage fails when a model group
references a model id missing from the model map or from the
texture-bind-group map, the sprite overlay stage fails when a sprite
group references an atlas id missing from its bind-group map — and no
such failure occurs when every referenced handle was previously issued
by `upload_model` / `upload_atlas` on the renderer. -/
theorem unknown_handle_fatal :
    (∀ (st : RendererState) (fp : FramePacket) (g : FramePacketModel),
        g ∈ fp.models → g.modelId ∉ st.models →
        ∃ msg, forwardDrawFrame st fp = .error msg) ∧
      (∀ (st : RendererState) (fp : FramePacket) (g : FramePacketModel),
        g ∈ fp.models → g.modelId ∉ st.forwardTextureBindGroups →
        ∃ msg, forwardDrawFrame st fp = .error msg) ∧
      (∀ (st : RendererState) (fp : FramePacket) (s : FramePacketSprites),
        s ∈ fp.overlaySprites → s.atlasId ∉ st.overlayTextureBindGroups →
        ∃ msg, overlayDrawFrame st fp = .error msg) ∧
      (∀ (es : List UploadEvent) (fp : FramePacket),
        (∀ g ∈ fp.models, g.modelId ∈ modelIdsOf (runUploads freshRenderer es).2) →
        (∀ s ∈ fp.overlaySprites, s.atlasId ∈ atlasIdsOf (runUploads freshRenderer es).2) →
        ∃ subs, rendererDrawFrame (runUploads freshRenderer es).1 fp = .ok subs) := by
  refine ⟨?_, ?_, ?_, ?_⟩
  · intro st fp g hg hbad
    obtain ⟨msg, hmsg⟩ := forwardGroupCmds_error_of_bad st fp.models g hg (Or.inl hbad)
    exact ⟨msg, by simp [forwardDrawFrame, hmsg]⟩
  · intro st fp g hg hbad
    obtain ⟨msg, hmsg⟩ := forwardGroupCmds_error_of_bad st fp.models g hg (Or.inr hbad)
    exact ⟨msg, by simp [forwardDrawFrame, hmsg]⟩
  · intro st fp s hs hbad
    exact overlayGroupCmds_error_of_bad st fp.overlaySprites s hs hbad
  · intro es fp hm ha
    have hinv := runUploads_models es freshRenderer
    have hmtr := modelIdsOf_runUploads es freshRenderer
    have hatr := atlasIdsOf_runUploads es freshRenderer
    have hmodels : (runUploads freshRenderer es).1.models =
        List.range' 0 (countModel es) := by
      rw [hinv.1]; rfl
    have hfwd : (runUploads freshRenderer es).1.forwardTextureBindGroups =
        List.range' 0 (countModel es) := by
      rw [hinv.2.1]; rfl
    have hovl : (runUploads freshRenderer es).1.overlayTextureBindGroups =
        List.range' 0 (countAtlas es) := by
      rw [hinv.2.2]; rfl
    obtain ⟨fcs, hfcs⟩ := forwardGroupCmds_ok_of_good (runUploads freshRenderer es).1
      fp.models (by
        intro g hg
        have := hm g hg
        rw [hmtr, show freshRenderer.nextModelId = 0 from rfl] at this
        exact ⟨by rw [hmodels]; exact this, by rw [hfwd]; exact this⟩)
    obtain ⟨ocs, hocs⟩ := overlayGroupCmds_ok_of_good (runUploads freshRenderer es).1
      fp.overlaySprites (by
        intro s hs
        have := ha s hs
        rw [hatr, show freshRenderer.nextAtlasId = 0 from rfl] at this
        rw [hovl]
        exact this)
    refine ⟨[(Cmd.copyBufferToBuffer .forward :: fcs) ++ ocs], ?_⟩
    simp [rendererDrawFrame, forwardDrawFrame, overlayDrawFrame, hfcs, hocs]

theorem forwardGroupCmds_stages (st : RendererState) (gs : List FramePacketModel) :
    ∀ cs, forwardGroupCmds st gs = .ok cs → ∀ c ∈ cs, c.stage = .forward := by
  induction gs with
  | nil =>
    intro cs hcs c hc
    rw [show forwardGroupCmds st [] = .ok [] from rfl] at hcs
    cases hcs
    cases hc
  | cons a gs ih =>
    intro cs hcs c hc
    by_cases h1 : a.modelId ∈ st.models
    · by_cases h2 : a.modelId ∈ st.forwardTextureBindGroups
      · cases hrec : forwardGroupCmds st gs with
        | error msg => simp [forwardGroupCmds, h1, h2, hrec] at hcs
        | ok rest =>
          simp only [forwardGroupCmds, if_pos h1, if_pos h2, hrec] at hcs
          cases hcs
          rcases List.mem_cons.1 hc with h | hc'
          · subst h; rfl
          rcases List.mem_cons.1 hc' with h | hc''
          · subst h; rfl
          exact ih rest hrec c hc''
      · simp [forwardGroupCmds, h1, h2] at hcs
    · simp [forwardGroupCmds, h1] at hcs

theorem overlayGroupCmds_stages (st : RendererState) (gs : List FramePacketSprites) :
    ∀ cs, overlayGroupCmds st gs = .ok cs → ∀ c ∈ cs, c.stage = .overlay := by
  induction gs with
  | nil =>
    intro cs hcs c hc
    rw [show overlayGroupCmds st [] = .ok [] from rfl] at hcs
    cases hcs
    cases hc
  | cons a gs ih =>
    intro cs hcs c hc
    by_cases h1 : a.atlasId ∈ st.overlayTextureBindGroups
    · cases hrec : overlayGroupCmds st gs with
      | error msg => simp [overlayGroupCmds, h1, hrec] at hcs
      | ok rest =>
        simp only [overlayGroupCmds, if_pos h1, hrec] at hcs
        cases hcs
        rcases List.mem_cons.1 hc with h | hc'
        · subst h; rfl
        rcases List.mem_cons.1 hc' with h | hc''
        · subst h; rfl
        exact ih rest hrec c hc''
    · simp [overlayGroupCmds, h1] at hcs

/-- C3: whenever `Renderer::draw_frame` succeeds, the submitted work is
a single submission consisting of the forward stage's commands followed
by the sprite overlay stage's commands, recorded into one encoder; every
forward command precedes every overlay command, so the overlay never
executes before the forward stage. -/
theorem drawFrame_stage_order (st : RendererState) (fp : FramePacket)
    (subs : List (List Cmd)) (h : rendererDrawFrame st fp = .ok subs) :
    ∃ fwd ovl, forwardDrawFrame st fp = .ok fwd ∧
      overlayDrawFrame st fp = .ok ovl ∧ subs = [fwd ++ ovl] ∧
      (∀ c ∈ fwd, c.stage = .forward) ∧ (∀ c ∈ ovl, c.stage = .overlay) := by
  cases hf : forwardDrawFrame st fp with
  | error msg => simp [rendererDrawFrame, hf] at h
  | ok fwd =>
    cases ho : overlayDrawFrame st fp with
    | error msg => simp [rendererDrawFrame, hf, ho] at h
    | ok ovl =>
      simp only [rendererDrawFrame, hf, ho] at h
      cases h
      refine ⟨fwd, ovl, rfl, rfl, rfl, ?_, ?_⟩
      · intro c hc
        cases hg : forwardGroupCmds st fp.models with
        | error msg => simp [forwardDrawFrame, hg] at hf
        | ok groups =>
          simp only [forwardDrawFrame, hg] at hf
          cases hf
          rcases List.mem_cons.1 hc with hcopy | hrest
          · subst hcopy; rfl
          exact forwardGroupCmds_stages st fp.models groups hg c hrest
      · exact overlayGroupCmds_stages st fp.overlaySprites ovl ho

/-- Renderer state after uploading one model and one atlas. -/
def demoState : RendererState := (runUploads freshRenderer [.model, .atlas]).1

/-- Renderer state after uploading two models and one atlas. -/
def demoStateTwo : RendererState :=
  (runUploads freshRenderer [.model, .model, .atlas]).1

/-- A frame packet referencing the issued handles of `demoState`: model
id 0 with one instance and atlas id 0 with one sprite. -/
def demoPacket : FramePacket :=
  { view := 1
    proj := 1
    models := [{ modelId := 0, instances := [{ modelMatrix := 1, normalMatrix := 1 }] }]
    overlaySprites := [{ atlasId := 0
                         sprites := [{ screenPos := ⟨0, 0⟩, screenSize := ⟨0, 0⟩,
                                       atlasPos := ⟨0, 0⟩, atlasSize := ⟨1, 1⟩ }] }] }

/-- A frame packet whose single model group references handle 2, which
was never issued by `demoState`. -/
def unknownModelPacket : FramePacket :=
  { view := 1, proj := 1, models := [{ modelId := 2, instances := [] }],
    overlaySprites := [] }

/-- A frame packet whose single sprite group references atlas handle 5,
which was never issued by `demoState`. -/
def unknownAtlasPacket : FramePacket :=
  { view := 1, proj := 1, models := [],
    overlaySprites := [{ atlasId := 5, sprites := [] }] }

/-- Concrete instantiation of `unknown_handle_fatal`: on `demoState`
(handles 0 issued in both spaces), a packet referencing model handle 2
fails in the forward stage, a packet referencing atlas handle 5 fails in
the overlay stage, and the packet referencing only issued handles draws
successfully. -/
theorem unknown_handle_fatal_witness :
    (∃ msg, forwardDrawFrame demoState unknownModelPacket = .error msg) ∧
      (∃ msg, overlayDrawFrame demoState unknownAtlasPacket = .error msg) ∧
      (∃ subs, rendererDrawFrame demoState demoPacket = .ok subs) := by
  refine ⟨?_, ?_, ?_⟩
  · exact unknown_handle_fatal.1 demoState unknownModelPacket
      { modelId := 2, instances := [] }
      (List.mem_singleton.2 rfl) (by decide)
  · exact unknown_handle_fatal.2.2.1 demoState unknownAtlasPacket
      { atlasId := 5, sprites := [] }
      (List.mem_singleton.2 rfl) (by decide)
  · exact unknown_handle_fatal.2.2.2 [.model, .atlas] demoPacket
      (by intro g hg; rcases List.mem_singleton.1 hg with rfl; decide)
      (by intro s hs; rcases List.mem_singleton.1 hs with rfl; decide)

/-- Concrete instantiation of `drawFrame_stage_order` on `demoState` and
`demoPacket`: the single submission is the forward commands followed by
the overlay commands. -/
theorem drawFrame_stage_order_witness :
    rendererDrawFrame demoState demoPacket =
        .ok [[Cmd.copyBufferToBuffer .forward,
          Cmd.beginRenderPass .forward .clear (some .clear),
          Cmd.drawIndexed .forward 0 1,
          Cmd.beginRenderPass .overlay .load none,
          Cmd.drawSprites .overlay 0 1]] ∧
      (Cmd.copyBufferToBuffer .forward).stage = .forward ∧
      (Cmd.drawSprites .overlay 0 1).stage = .overlay := by
  obtain ⟨fwd, ovl, hf, ho, hsubs, hstF, hstO⟩ :=
    drawFrame_stage_order demoState demoPacket
      [[Cmd.copyBufferToBuffer .forward,
        Cmd.beginRenderPass .forward .clear (some .clear),
        Cmd.drawIndexed .forward 0 1,
        Cmd.beginRenderPass .overlay .load none,
        Cmd.drawSprites .overlay 0 1]] rfl
  have hfval : forwardDrawFrame demoState demoPacket =
      .ok [Cmd.copyBufferToBuffer .forward,
        Cmd.beginRenderPass .forward .clear (some .clear),
        Cmd.drawIndexed .forward 0 1] := rfl
  have hoval : overlayDrawFrame demoState demoPacket =
      .ok [Cmd.beginRenderPass .overlay .load none,
        Cmd.drawSprites .overlay 0 1] := rfl
  rw [hfval] at hf
  rw [hoval] at ho
  cases hf
  cases ho
  exact ⟨rfl, hstF _ (List.mem_cons_self _ _),
    hstO _ (List.mem_cons_of_mem _ (List.mem_cons_self _ _))⟩

/-- Whether a command begins a render pass. -/
def isBeginPass : Cmd → Bool
  | .beginRenderPass _ _ _ => true
  | _ => false

theorem forwardGroupCmds_shape (st : RendererState) (gs : List FramePacketModel) :
    ∀ cs, forwardGroupCmds st gs = .ok cs →
      (∀ s cl dl, Cmd.beginRenderPass s cl dl ∈ cs → cl = .clear ∧ dl = some .clear) ∧
        cs.countP (fun c => isBeginPass c) = gs.length ∧
        (∀ (acc : List (Nat × Nat)) (g : FramePacketModel), gs.getLast? = some g →
          interpColor acc cs = [(g.modelId, g.instances.length)]) := by
  induction gs with
  | nil =>
    intro cs hcs
    rw [show forwardGroupCmds st [] = .ok [] from rfl] at hcs
    cases hcs
    refine ⟨fun s cl dl h => absurd h (List.not_mem_nil _), rfl, ?_⟩
    intro acc g hg
    cases hg
  | cons a gs ih =>
    intro cs hcs
    by_cases h1 : a.modelId ∈ st.models
    · by_cases h2 : a.modelId ∈ st.forwardTextureBindGroups
      · cases hrec : forwardGroupCmds st gs with
        | error msg => simp [forwardGroupCmds, h1, h2, hrec] at hcs
        | ok rest =>
          simp only [forwardGroupCmds, if_pos h1, if_pos h2, hrec] at hcs
          cases hcs
          obtain ⟨ihpass, ihcount, ihlast⟩ := ih rest hrec
          refine ⟨?_, ?_, ?_⟩
          · intro s cl dl h
            rcases List.mem_cons.1 h with h | h
            · cases h; exact ⟨rfl, rfl⟩
            rcases List.mem_cons.1 h with h | h
            · cases h
            exact ihpass s cl dl h
          · rw [List.countP_append, ihcount]
            have hc2 : List.countP (fun c => isBeginPass c)
                [Cmd.beginRenderPass Stage.forward LoadOp.clear (some LoadOp.clear),
                  Cmd.drawIndexed Stage.forward a.modelId a.instances.length] = 1 := rfl
            rw [hc2, List.length_cons]
            omega
          · intro acc g hg
            show interpColor ([] ++ [(a.modelId, a.instances.length)]) rest = _
            cases gs with
            | nil =>
              rw [show forwardGroupCmds st [] = .ok [] from rfl] at hrec
              cases hrec
              cases hg
              rfl
            | cons b gs' =>
              rw [List.getLast?_cons_cons] at hg
              exact ihlast _ g hg
      · simp [forwardGroupCmds, h1, h2] at hcs
    · simp [forwardGroupCmds, h1] at hcs

/-- C8: in the forward stage every model group is drawn in its own
render pass (one pass per group) and every such pass uses a `Clear`
load operation for both the color and the depth attachment; as a
consequence, whatever the color target held before, after the forward
stage it holds exactly the draws of the last model group — each group's
pass clears the output of all preceding groups. -/
theorem forward_clears_every_pass (st : RendererState) (fp : FramePacket)
    (cs : List Cmd) (h : forwardDrawFrame st fp = .ok cs) :
    (∀ s cl dl, Cmd.beginRenderPass s cl dl ∈ cs → cl = .clear ∧ dl = some .clear) ∧
      cs.countP (fun c => isBeginPass c) = fp.models.length ∧
      (∀ (acc : List (Nat × Nat)) (g : FramePacketModel),
        fp.models.getLast? = some g →
        interpColor acc cs = [(g.modelId, g.instances.length)]) := by
  cases hg : forwardGroupCmds st fp.models with
  | error msg => simp [forwardDrawFrame, hg] at h
  | ok groups =>
    simp only [forwardDrawFrame, hg] at h
    cases h
    obtain ⟨hpass, hcount, hlast⟩ := forwardGroupCmds_shape st fp.models groups hg
    refine ⟨?_, ?_, ?_⟩
    · intro s cl dl h
      rcases List.mem_cons.1 h with h | h
      · cases h
      exact hpass s cl dl h
    · rw [List.countP_cons, hcount]
      simp [isBeginPass]
    · intro acc g hgl
      show interpColor acc groups = _
      exact hlast acc g hgl

/-- A frame packet with two model groups (handles 0 and 1 of
`demoStateTwo`), used to exhibit that only the last group's draws
survive the forward stage. -/
def twoGroupPacket : FramePacket :=
  { view := 1
    proj := 1
    models := [{ modelId := 0, instances := [{ modelMatrix := 1, normalMatrix := 1 }] },
               { modelId := 1, instances := [{ modelMatrix := 1, normalMatrix := 1 }] }]
    overlaySprites := [] }

/-- Concrete instantiation of `forward_clears_every_pass` on a packet
with two model groups: two render passes are recorded, and interpreting
the commands over an arbitrary non-empty starting color content leaves
exactly the draw of the last group (model id 1). -/
theorem forward_clears_every_pass_witness :
    (forwardDrawFrame demoStateTwo twoGroupPacket).isOk = true ∧
      (match forwardDrawFrame demoStateTwo twoGroupPacket with
        | .ok cs => cs.countP (fun c => isBeginPass c) = 2 ∧
            interpColor [(7, 3)] cs = [(1, 1)]
        | .error _ => False) := by
  have h := forward_clears_every_pass demoStateTwo twoGroupPacket
    [Cmd.copyBufferToBuffer .forward,
      Cmd.beginRenderPass .forward .clear (some .clear),
      Cmd.drawIndexed .forward 0 1,
      Cmd.beginRenderPass .forward .clear (some .clear),
      Cmd.drawIndexed .forward 1 1] rfl
  have hlast := h.2.2 [(7, 3)]
    { modelId := 1, instances := [{ modelMatrix := 1, normalMatrix := 1 }] } rfl
  exact ⟨rfl, h.2.1, hlast⟩

end
